import Mathlib

/-
  Shallow embedding of the websocket chat hub from
  lab_7/websocket-chat/server/main.go.

  Modelling conventions:
  - A Go client pointer is modelled by a numeric id carried in the Client
    structure; the per-client outbound channel (chan Message, created with a
    capacity) is modelled by a mailbox list plus a capacity field.
  - The hub room directory (map[string]*Room) is modelled as an association
    list from room name to member client list; lookup reads the first entry
    with the key, update rewrites that entry, deletion drops it, creation
    appends. Go map iteration order is determinized to list order.
  - A non-blocking channel send (select with a default branch) appends to the
    mailbox when its length is below capacity and otherwise drops the message;
    a plain blocking send always appends (the reader eventually drains the
    channel; the sequential model records the delivery immediately).
  - Every operation returns the new hub together with a delivery trace: the
    list of (client id, message) pairs placed into mailboxes, in program
    order.
  - time.Now().Format(...) is passed in as an explicit string parameter, and
    uuid.NewString() as an explicit fresh-id parameter.
-/

namespace WsChat

/-- Wire message, from the Go struct Message (fields Type, Room, Username,
Text, Time); the Go field Type is rendered as the field named type. -/
structure Message where
  type : String
  room : String
  username : String
  text : String
  time : String
deriving DecidableEq, Repr

def MsgChat : String := "chat"
def MsgSystem : String := "system"
def MsgUserList : String := "user_list"
def MsgStats : String := "stats"
def MsgCommand : String := "command"

/-- Administrative notification, from the Go struct Notification (fields ID,
Type, Title, Message, Timestamp, Target); the Go field Type is rendered as
ntype and the timestamp as its formatted string. -/
structure Notification where
  id : String
  ntype : String
  title : String
  message : String
  timestamp : String
  target : String
deriving DecidableEq, Repr

/-- Client session, from the Go struct Client: the conn is outside the model,
send (chan Message with a creation capacity) is the mailbox list plus the
capacity field, and id stands for the pointer identity. -/
structure Client where
  id : Nat
  username : String
  room : String
  capacity : Nat
  mailbox : List Message
deriving DecidableEq, Repr

abbrev Rooms := List (String × List Client)

/-- Hub state: the room directory (map[string]*Room, each Room holding its
member set) and the notification history slice. -/
structure Hub where
  rooms : Rooms
  history : List Notification
deriving DecidableEq, Repr

/-- NewHub: empty room directory, empty history. -/
def NewHub : Hub := { rooms := [], history := [] }

/-- Directory lookup rs[name]: the first entry with the key. -/
def findRoom : Rooms → String → Option (List Client)
  | [], _ => none
  | p :: ps, name => if p.1 = name then some p.2 else findRoom ps name

/-- Directory update rs[name] = cs: rewrite the first entry with the key. -/
def setRoom : Rooms → String → List Client → Rooms
  | [], _, _ => []
  | p :: ps, name, cs => if p.1 = name then (name, cs) :: ps else p :: setRoom ps name cs

def lookupRoom (h : Hub) (name : String) : Option (List Client) :=
  findRoom h.rooms name

def setRoomClients (h : Hub) (name : String) (cs : List Client) : Hub :=
  { h with rooms := setRoom h.rooms name cs }

/-- delete(h.rooms, name). -/
def deleteRoom (h : Hub) (name : String) : Hub :=
  { h with rooms := h.rooms.filter (fun p => ¬ p.1 = name) }

/-- getOrCreateRoom: keep the hub when the named room exists, otherwise add an
empty room under that name (the Go function returns the room pointer; the
model keeps the directory update). -/
def getOrCreateRoom (h : Hub) (name : String) : Hub :=
  if (findRoom h.rooms name).isSome then h
  else { h with rooms := h.rooms ++ [(name, [])] }

/-- One attempted non-blocking send to one client: select c.send <- msg with a
default branch that drops. -/
def deliverIfSpace (msg : Message) (c : Client) : Client :=
  if c.mailbox.length < c.capacity then { c with mailbox := c.mailbox ++ [msg] } else c

/-- broadcastToRoom: look the room up; when absent return silently; otherwise
attempt a non-blocking send to every member, dropping where the mailbox is
full. The trace lists the members that actually received the message. -/
def broadcastToRoom (h : Hub) (roomName : String) (msg : Message) :
    Hub × List (Nat × Message) :=
  match lookupRoom h roomName with
  | none => (h, [])
  | some cs =>
      (setRoomClients h roomName (cs.map (deliverIfSpace msg)),
       cs.filterMap (fun c =>
         if c.mailbox.length < c.capacity then some (c.id, msg) else none))

/-- A blocking send client.send <- msg to the client with the given id,
wherever it appears in the directory: always appends. -/
def sendTo (h : Hub) (i : Nat) (msg : Message) : Hub :=
  { h with rooms := h.rooms.map (fun p =>
      (p.1, p.2.map (fun c =>
        if c.id = i then { c with mailbox := c.mailbox ++ [msg] } else c))) }

def singleQuote : String := String.singleton (Char.ofNat 39)

/-- strings.HasPrefix, rendered over the character list of the string. -/
def hasPrefixStr (s p : String) : Bool :=
  p.data.isPrefixOf s.data

/-- strings.TrimPrefix for a prefix known to be present: drop its characters
(the prefixes used by the hub are the 5-character room: and user: tags). -/
def dropStr (s : String) (n : Nat) : String :=
  String.mk (s.data.drop n)

/-- The user list text built by sendUserListToRoom. -/
def userListText (roomName : String) (users : List String) : String :=
  users.foldl (fun acc u => acc ++ "- " ++ u ++ "\n")
    ("Users in " ++ singleQuote ++ roomName ++ singleQuote ++ " ("
      ++ toString users.length ++ "):\n")

/-- The user list message for a snapshot of member usernames. -/
def userListMsg (roomName : String) (users : List String) (now : String) : Message :=
  { type := MsgUserList, room := roomName, username := "SYSTEM",
    text := userListText roomName users, time := now }

/-- sendUserListToRoom: snapshot the member usernames, format the text, and
broadcast a user_list message to the room. -/
def sendUserListToRoom (h : Hub) (roomName : String) (now : String) :
    Hub × List (Nat × Message) :=
  match lookupRoom h roomName with
  | none => (h, [])
  | some cs =>
      broadcastToRoom h roomName (userListMsg roomName (cs.map (fun c => c.username)) now)

/-- The filter applied to the history replayed to a joining client: the switch
on n.Target in addClientToRoom. -/
def notifMatches (n : Notification) (room username : String) : Bool :=
  if n.target = "all" then true
  else if hasPrefixStr n.target "room:" then dropStr n.target 5 = room
  else if hasPrefixStr n.target "user:" then dropStr n.target 5 = username
  else false

/-- The system message a replayed history notification becomes. -/
def notifReplayMsg (n : Notification) (room : String) : Message :=
  { type := MsgSystem, room := room, username := "SYSTEM",
    text := "[NOTIF] " ++ n.title ++ ": " ++ n.message, time := n.timestamp }

/-- The history replay loop of addClientToRoom: one blocking send to the
joining client for every matching notification, in history order. -/
def replayHistory (h : Hub) (hist : List Notification) (c : Client) :
    Hub × List (Nat × Message) :=
  hist.foldl (fun acc n =>
    if notifMatches n c.room c.username then
      (sendTo acc.1 c.id (notifReplayMsg n c.room),
       acc.2 ++ [(c.id, notifReplayMsg n c.room)])
    else acc) (h, [])

/-- r.Clients[client] = true, keyed on pointer identity. -/
def insertClient (cs : List Client) (c : Client) : List Client :=
  if cs.any (fun x => x.id = c.id) then cs else cs ++ [c]

/-- The join message of addClientToRoom. -/
def joinMsg (c : Client) (now : String) : Message :=
  { type := "join", room := c.room, username := c.username,
    text := c.username ++ " joined", time := now }

/-- The membership mutation at the head of addClientToRoom: r :=
getOrCreateRoom(client.room) followed by r.Clients[client] = true. -/
def joinStep (h : Hub) (c : Client) : Hub :=
  let h1 := getOrCreateRoom h c.room
  setRoomClients h1 c.room (insertClient ((lookupRoom h1 c.room).getD []) c)

/-- addClientToRoom (the register path): get or create the room, add the
client to its member set, broadcast the join, replay matching history to the
new client only, then broadcast the refreshed user list. -/
def addClientToRoom (h : Hub) (c : Client) (now : String) :
    Hub × List (Nat × Message) :=
  let h2 := joinStep h c
  let r1 := broadcastToRoom h2 c.room (joinMsg c now)
  let r2 := replayHistory r1.1 r1.1.history c
  let r3 := sendUserListToRoom r2.1 c.room now
  (r3.1, r1.2 ++ r2.2 ++ r3.2)

/-- The leave message of removeClientFromRoom. -/
def leaveMsg (c : Client) (now : String) : Message :=
  { type := "leave", room := c.room, username := c.username,
    text := c.username ++ " left", time := now }

/-- removeClientFromRoom (the unregister path): when the room is absent return
silently; otherwise delete the client from the member set when present, record
the remaining count, broadcast the leave and the refreshed user list, and
delete the room when the remaining count is zero. -/
def removeClientFromRoom (h : Hub) (c : Client) (now : String) :
    Hub × List (Nat × Message) :=
  match lookupRoom h c.room with
  | none => (h, [])
  | some cs =>
      let cs1 := cs.filter (fun x => ¬ x.id = c.id)
      let remaining := cs1.length
      let h1 := setRoomClients h c.room cs1
      let r1 := broadcastToRoom h1 c.room (leaveMsg c now)
      let r2 := sendUserListToRoom r1.1 c.room now
      let h2 := if remaining = 0 then deleteRoom r2.1 c.room else r2.1
      (h2, r1.2 ++ r2.2)

/-- The per-room member counts used by /stats and the stats endpoint. -/
def statsDetails (h : Hub) : List (String × Nat) :=
  h.rooms.map (fun p => (p.1, p.2.length))

/-- Deterministic rendering of the /stats payload: json.MarshalIndent over the
stats object is modelled by a plain rendering of the same data. -/
def statsText (totalUsers totalRooms : Nat) (details : List (String × Nat)) : String :=
  details.foldl (fun acc p => acc ++ p.1 ++ ": " ++ toString p.2 ++ "\n")
    ("total_users: " ++ toString totalUsers ++ "\ntotal_rooms: "
      ++ toString totalRooms ++ "\n")

/-- The single /stats reply message. -/
def statsReplyMsg (h : Hub) (c : Client) (now : String) : Message :=
  { type := MsgStats, room := c.room, username := "SYSTEM",
    text := statsText (((statsDetails h).map (fun p => p.2)).foldl (fun a b => a + b) 0)
      (statsDetails h).length (statsDetails h),
    time := now }

/-- The single /rooms reply message. -/
def roomsReplyMsg (h : Hub) (c : Client) (now : String) : Message :=
  { type := MsgSystem, room := c.room, username := "SYSTEM",
    text := (h.rooms.map (fun p => p.1)).foldl (fun acc n => acc ++ "- " ++ n ++ "\n") "Rooms:\n",
    time := now }

/-- The reply to an unrecognized command. -/
def unknownReplyMsg (c : Client) (now : String) : Message :=
  { type := MsgSystem, room := c.room, username := "SYSTEM",
    text := "Unknown command", time := now }

/-- handleCommand: /users rebroadcasts the user list of the room of the
caller; /stats, /rooms and an unknown command each place a single reply in the
mailbox of the caller via a blocking send. -/
def handleCommand (h : Hub) (c : Client) (cmd : String) (now : String) :
    Hub × List (Nat × Message) :=
  if cmd = "/users" then sendUserListToRoom h c.room now
  else if cmd = "/stats" then
    (sendTo h c.id (statsReplyMsg h c now), [(c.id, statsReplyMsg h c now)])
  else if cmd = "/rooms" then
    (sendTo h c.id (roomsReplyMsg h c now), [(c.id, roomsReplyMsg h c now)])
  else
    (sendTo h c.id (unknownReplyMsg c now), [(c.id, unknownReplyMsg c now)])

/-- uuid assignment inside addNotification: fresh stands for uuid.NewString(). -/
def assignId (n : Notification) (fresh : String) : Notification :=
  if n.id = "" then { n with id := fresh } else n

/-- addNotification: assign an id when empty, append to the history, and trim
the history to its newest 50 entries when it exceeds 50. -/
def addNotification (h : Hub) (n : Notification) (fresh : String) : Hub :=
  let hist := h.history ++ [assignId n fresh]
  { h with history := if hist.length > 50 then hist.drop (hist.length - 50) else hist }

/-- The admin system message a routed notification becomes in a given room. -/
def adminMsg (n : Notification) (roomName : String) : Message :=
  { type := MsgSystem, room := roomName, username := "ADMIN",
    text := n.title ++ ": " ++ n.message, time := n.timestamp }

/-- routeNotification: append to the history first, then switch on the target:
all broadcasts to every room, room: to the single named room, user: performs a
blocking send to every member with the matching username in every room, and
any other target matches no case of the switch and delivers nothing. -/
def routeNotification (h : Hub) (n : Notification) (fresh : String) :
    Hub × List (Nat × Message) :=
  let h0 := addNotification h n fresh
  if n.target = "all" then
    (h0.rooms.map (fun p => p.1)).foldl (fun acc nm =>
      let r := broadcastToRoom acc.1 nm (adminMsg n nm)
      (r.1, acc.2 ++ r.2)) (h0, [])
  else if hasPrefixStr n.target "room:" then
    broadcastToRoom h0 (dropStr n.target 5) (adminMsg n (dropStr n.target 5))
  else if hasPrefixStr n.target "user:" then
    let user := dropStr n.target 5
    ({ h0 with rooms := h0.rooms.map (fun p =>
         (p.1, p.2.map (fun c =>
           if c.username = user then { c with mailbox := c.mailbox ++ [adminMsg n p.1] }
           else c))) },
     h0.rooms.foldl (fun acc p =>
       acc ++ (p.2.filter (fun c => c.username = user)).map (fun c => (c.id, adminMsg n p.1))) [])
  else (h0, [])

/-! Observables and derived notions used by the statements. -/

/-- Room directory with each member list reduced to client ids: the membership
observable. -/
def idsOf (rs : Rooms) : List (String × List Nat) :=
  rs.map (fun p => (p.1, p.2.map Client.id))

def roomIds (h : Hub) : List (String × List Nat) := idsOf h.rooms

/-- The newest k entries of a list, in order. -/
def lastN (k : Nat) (xs : List Notification) : List Notification :=
  xs.drop (xs.length - k)

/-- The replay messages a given history produces for a joining client. -/
def replayMsgs (hist : List Notification) (c : Client) : List Message :=
  (hist.filter (fun n => notifMatches n c.room c.username)).map
    (fun n => notifReplayMsg n c.room)

/-- The member list of the room of c right after the insertion step of
addClientToRoom. -/
def joinedMembers (h : Hub) (c : Client) : List Client :=
  insertClient ((lookupRoom h c.room).getD []) c

/-- A register or unregister request arriving at the hub control loop. -/
inductive HubOp where
  | register (c : Client) (now : String)
  | unregister (c : Client) (now : String)

def applyOp (h : Hub) : HubOp → Hub
  | .register c now => (addClientToRoom h c now).1
  | .unregister c now => (removeClientFromRoom h c now).1

def applyOps (h : Hub) (ops : List HubOp) : Hub :=
  ops.foldl applyOp h

/-! Concrete example values used by witnesses and counterexamples. -/

def exAlice : Client := { id := 1, username := "alice", room := "lobby", capacity := 1, mailbox := [] }
def exBob : Client := { id := 2, username := "bob", room := "lobby", capacity := 10, mailbox := [] }
def exCarol : Client := { id := 3, username := "carol", room := "lobby", capacity := 10, mailbox := [] }
def exBobDen : Client := { id := 4, username := "bob", room := "den", capacity := 10, mailbox := [] }

def exHub : Hub := { rooms := [("lobby", [exAlice, exBob])], history := [] }
def exHub2 : Hub := { rooms := [("lobby", [exAlice, exBob]), ("den", [exBobDen])], history := [] }

def exMsg1 : Message := { type := "chat", room := "lobby", username := "bob", text := "one", time := "t1" }
def exMsg2 : Message := { type := "chat", room := "lobby", username := "bob", text := "two", time := "t2" }

def exNotifOther : Notification :=
  { id := "n1", ntype := "info", title := "T", message := "M", timestamp := "ts", target := "everyone" }
def exNotifRoomDen : Notification :=
  { id := "n2", ntype := "info", title := "E", message := "F", timestamp := "ts", target := "room:den" }
def exNotifUserBob : Notification :=
  { id := "n3", ntype := "info", title := "G", message := "H", timestamp := "ts", target := "user:bob" }
def exNotifRoomGone : Notification :=
  { id := "n4", ntype := "info", title := "I", message := "J", timestamp := "ts", target := "room:void" }

/-- exAlice with its capacity-1 mailbox already holding one message. -/
def exAliceFull : Client := { exAlice with mailbox := [exMsg1] }

def exHubFull : Hub := { rooms := [("lobby", [exAliceFull, exBob])], history := [] }

/-! Directory algebra. -/

theorem findRoom_append_of_none {rs ts : Rooms} {n : String}
    (h : findRoom rs n = none) : findRoom (rs ++ ts) n = findRoom ts n := by
  induction rs with
  | nil => rfl
  | cons p ps ih =>
    simp only [findRoom] at h
    simp only [List.cons_append, findRoom]
    by_cases hp : p.1 = n
    · simp [hp] at h
    · simp only [if_neg hp] at h ⊢
      exact ih h

theorem setRoom_of_none {rs : Rooms} {n : String} {cs : List Client}
    (h : findRoom rs n = none) : setRoom rs n cs = rs := by
  induction rs with
  | nil => rfl
  | cons p ps ih =>
    by_cases hp : p.1 = n
    · simp [findRoom, hp] at h
    · simp only [findRoom, hp] at h
      simp [setRoom, hp, ih h]

theorem findRoom_setRoom_self {rs : Rooms} {n : String} {cs0 cs : List Client}
    (h : findRoom rs n = some cs0) : findRoom (setRoom rs n cs) n = some cs := by
  induction rs with
  | nil => simp [findRoom] at h
  | cons p ps ih =>
    by_cases hp : p.1 = n
    · simp [setRoom, findRoom, hp]
    · simp only [findRoom, hp] at h
      simp [setRoom, findRoom, hp, ih h]

theorem findRoom_setRoom_ne {rs : Rooms} {n m : String} {cs : List Client}
    (hnm : ¬ n = m) : findRoom (setRoom rs n cs) m = findRoom rs m := by
  induction rs with
  | nil => rfl
  | cons p ps ih =>
    by_cases hp : p.1 = n
    · simp [setRoom, findRoom, hp, hnm]
    · simp [setRoom, findRoom, hp, ih]

theorem mem_setRoom {rs : Rooms} {n : String} {cs : List Client} {p : String × List Client}
    (hp : p ∈ setRoom rs n cs) : p ∈ rs ∨ p = (n, cs) := by
  induction rs with
  | nil => simp [setRoom] at hp
  | cons q qs ih =>
    by_cases hq : q.1 = n
    · simp only [setRoom, hq, if_true] at hp
      rcases List.mem_cons.mp hp with h1 | h1
      · exact Or.inr h1
      · exact Or.inl (List.mem_cons_of_mem _ h1)
    · simp only [setRoom, hq, if_false] at hp
      rcases List.mem_cons.mp hp with h1 | h1
      · exact Or.inl (h1 ▸ List.mem_cons_self _ _)
      · rcases ih h1 with h2 | h2
        · exact Or.inl (List.mem_cons_of_mem _ h2)
        · exact Or.inr h2

theorem setRoom_self {rs : Rooms} {n : String} {cs : List Client}
    (h : findRoom rs n = some cs) : setRoom rs n cs = rs := by
  induction rs with
  | nil => simp [findRoom] at h
  | cons p ps ih =>
    obtain ⟨a, b⟩ := p
    simp only [findRoom] at h
    by_cases hp : a = n
    · subst hp
      rw [if_pos rfl] at h
      injection h with h
      subst h
      simp [setRoom]
    · simp only [if_neg hp] at h
      simp [setRoom, hp, ih h]

theorem findRoom_some_mem {rs : Rooms} {n : String} {cs : List Client}
    (h : findRoom rs n = some cs) : (n, cs) ∈ rs := by
  induction rs with
  | nil => simp [findRoom] at h
  | cons p ps ih =>
    obtain ⟨a, b⟩ := p
    simp only [findRoom] at h
    by_cases hp : a = n
    · subst hp
      rw [if_pos rfl] at h
      injection h with h
      subst h
      exact List.mem_cons_self _ _
    · simp only [if_neg hp] at h
      exact List.mem_cons_of_mem _ (ih h)

theorem idsOf_setRoom {rs : Rooms} {n : String} {cs0 cs : List Client}
    (h : findRoom rs n = some cs0) (hids : cs.map Client.id = cs0.map Client.id) :
    idsOf (setRoom rs n cs) = idsOf rs := by
  induction rs with
  | nil => simp [findRoom] at h
  | cons p ps ih =>
    by_cases hp : p.1 = n
    · simp only [findRoom, hp, if_true, Option.some_inj] at h
      simp [setRoom, idsOf, hp, hids, h]
    · simp only [findRoom, hp, if_false] at h
      simp only [setRoom, hp, if_false]
      simp only [idsOf, List.map_cons] at ih ⊢
      rw [ih h]

theorem idsOf_map_clients (g : String → Client → Client)
    (hg : ∀ s c, (g s c).id = c.id) (rs : Rooms) :
    idsOf (rs.map (fun p => (p.1, p.2.map (g p.1)))) = idsOf rs := by
  simp only [idsOf, List.map_map]
  refine List.map_congr_left (fun p _ => ?_)
  simp only [Function.comp_apply, List.map_map]
  refine congrArg _ (List.map_congr_left (fun c _ => ?_))
  exact hg p.1 c

/-! List helpers for traces. -/

theorem filterMap_ite {α β : Type} (P : α → Prop) [DecidablePred P] (f : α → β)
    (l : List α) :
    l.filterMap (fun a => if P a then some (f a) else none)
      = (l.filter (fun a => P a)).map f := by
  induction l with
  | nil => rfl
  | cons a l ih =>
    by_cases ha : P a
    · simp [List.filterMap_cons, List.filter_cons, ha, ih]
    · simp [List.filterMap_cons, List.filter_cons, ha, ih]

theorem filter_eq_self_of_all {α : Type} (P : α → Prop) [DecidablePred P]
    (l : List α) (hall : ∀ a ∈ l, P a) : l.filter (fun a => P a) = l := by
  induction l with
  | nil => rfl
  | cons a l ih =>
    have ha : P a := hall a (List.mem_cons_self _ _)
    simp [List.filter_cons, ha, ih (fun x hx => hall x (List.mem_cons_of_mem _ hx))]

theorem foldl_append_traces {α β : Type} (f : α → List β) (rs : List α) :
    ∀ t0 : List β, rs.foldl (fun acc p => acc ++ f p) t0 = t0 ++ rs.flatMap f := by
  induction rs with
  | nil => intro t0; simp
  | cons p ps ih =>
    intro t0
    simp only [List.foldl_cons, List.flatMap_cons, ih, List.append_assoc]

/-! Hub-level frame and characterization lemmas. -/

theorem rooms_addNotification (h : Hub) (n : Notification) (f : String) :
    (addNotification h n f).rooms = h.rooms := rfl

theorem lookupRoom_addNotification (h : Hub) (n : Notification) (f : String) (r : String) :
    lookupRoom (addNotification h n f) r = lookupRoom h r := rfl

theorem broadcastToRoom_absent {h : Hub} {r : String} (m : Message)
    (hr : lookupRoom h r = none) : broadcastToRoom h r m = (h, []) := by
  simp [broadcastToRoom, hr]

theorem broadcastToRoom_found {h : Hub} {r : String} {cs : List Client} (m : Message)
    (hr : lookupRoom h r = some cs) :
    broadcastToRoom h r m =
      (setRoomClients h r (cs.map (deliverIfSpace m)),
       cs.filterMap (fun c =>
         if c.mailbox.length < c.capacity then some (c.id, m) else none)) := by
  simp [broadcastToRoom, hr]

theorem deliverIfSpace_id (m : Message) (c : Client) :
    (deliverIfSpace m c).id = c.id := by
  unfold deliverIfSpace; split <;> rfl

theorem deliverIfSpace_username (m : Message) (c : Client) :
    (deliverIfSpace m c).username = c.username := by
  unfold deliverIfSpace; split <;> rfl

theorem deliverIfSpace_capacity (m : Message) (c : Client) :
    (deliverIfSpace m c).capacity = c.capacity := by
  unfold deliverIfSpace; split <;> rfl

theorem deliverIfSpace_mailbox_le (m : Message) (c : Client) :
    (deliverIfSpace m c).mailbox.length ≤ c.mailbox.length + 1 := by
  unfold deliverIfSpace
  split
  · simp
  · simp [Nat.le_succ]

theorem broadcast_history (h : Hub) (r : String) (m : Message) :
    (broadcastToRoom h r m).1.history = h.history := by
  cases hr : lookupRoom h r with
  | none => rw [broadcastToRoom_absent m hr]
  | some cs =>
    rw [broadcastToRoom_found m hr]
    rfl

theorem roomIds_broadcast (h : Hub) (r : String) (m : Message) :
    roomIds (broadcastToRoom h r m).1 = roomIds h := by
  cases hr : lookupRoom h r with
  | none => rw [broadcastToRoom_absent m hr]
  | some cs =>
    rw [broadcastToRoom_found m hr]
    refine idsOf_setRoom hr ?_
    simp only [List.map_map]
    exact List.map_congr_left (fun c _ => deliverIfSpace_id m c)

theorem roomIds_sendTo (h : Hub) (i : Nat) (m : Message) :
    roomIds (sendTo h i m) = roomIds h := by
  refine idsOf_map_clients
    (fun _ c => if c.id = i then { c with mailbox := c.mailbox ++ [m] } else c)
    (fun s c => ?_) h.rooms
  show (if c.id = i then { c with mailbox := c.mailbox ++ [m] } else c).id = c.id
  split <;> rfl

theorem sendTo_history (h : Hub) (i : Nat) (m : Message) :
    (sendTo h i m).history = h.history := rfl

theorem roomIds_sendUserList (h : Hub) (r : String) (now : String) :
    roomIds (sendUserListToRoom h r now).1 = roomIds h := by
  unfold sendUserListToRoom
  cases hr : lookupRoom h r with
  | none => simp [hr]
  | some cs => simp [hr, roomIds_broadcast]

theorem sendUserList_history (h : Hub) (r : String) (now : String) :
    (sendUserListToRoom h r now).1.history = h.history := by
  unfold sendUserListToRoom
  cases hr : lookupRoom h r with
  | none => simp [hr]
  | some cs => simp [hr, broadcast_history]

theorem broadcast_trace_of_space {h : Hub} {r : String} {cs : List Client} (m : Message)
    (hr : lookupRoom h r = some cs)
    (hsp : ∀ x ∈ cs, x.mailbox.length < x.capacity) :
    (broadcastToRoom h r m).2 = cs.map (fun x => (x.id, m)) := by
  rw [broadcastToRoom_found m hr]
  show cs.filterMap _ = _
  rw [filterMap_ite (fun x : Client => x.mailbox.length < x.capacity) (fun x => (x.id, m)) cs]
  rw [filter_eq_self_of_all _ cs hsp]

theorem broadcast_room_clients {h : Hub} {r : String} {cs : List Client} (m : Message)
    (hr : lookupRoom h r = some cs) :
    lookupRoom (broadcastToRoom h r m).1 r = some (cs.map (deliverIfSpace m)) := by
  rw [broadcastToRoom_found m hr]
  exact findRoom_setRoom_self hr

theorem broadcast_trace_mem {h : Hub} {r : String} {cs : List Client} {m : Message}
    {d : Nat × Message} (hr : lookupRoom h r = some cs)
    (hd : d ∈ (broadcastToRoom h r m).2) :
    d.2 = m ∧ d.1 ∈ cs.map Client.id := by
  rw [broadcastToRoom_found m hr] at hd
  simp only at hd
  rcases List.mem_filterMap.mp hd with ⟨c, hc, hcd⟩
  by_cases hsp : c.mailbox.length < c.capacity
  · rw [if_pos hsp] at hcd
    injection hcd with hcd
    subst hcd
    exact ⟨rfl, List.mem_map_of_mem _ hc⟩
  · rw [if_neg hsp] at hcd
    cases hcd

/-! The replay fold characterization. -/

theorem replay_fold_general (c : Client) (hist : List Notification) :
    ∀ (h : Hub) (t0 : List (Nat × Message)),
    hist.foldl (fun acc n =>
      if notifMatches n c.room c.username then
        (sendTo acc.1 c.id (notifReplayMsg n c.room),
         acc.2 ++ [(c.id, notifReplayMsg n c.room)])
      else acc) (h, t0)
    = (Hub.mk (h.rooms.map (fun p => (p.1, p.2.map (fun x =>
          if x.id = c.id then { x with mailbox := x.mailbox ++ replayMsgs hist c } else x))))
          h.history,
       t0 ++ (replayMsgs hist c).map (fun m => (c.id, m))) := by
  induction hist with
  | nil =>
    intro h t0
    simp [replayMsgs]
  | cons n hist ih =>
    intro h t0
    simp only [List.foldl_cons]
    by_cases hm : notifMatches n c.room c.username = true
    · rw [if_pos hm]
      rw [ih (sendTo h c.id (notifReplayMsg n c.room)) (t0 ++ [(c.id, notifReplayMsg n c.room)])]
      have hrep : replayMsgs (n :: hist) c = notifReplayMsg n c.room :: replayMsgs hist c := by
        simp [replayMsgs, List.filter_cons, hm]
      refine Prod.ext ?_ ?_
      · show Hub.mk _ _ = Hub.mk _ _
        simp only [sendTo, hrep]
        refine congrArg (fun rs => Hub.mk rs h.history) ?_
        rw [List.map_map]
        refine List.map_congr_left (fun p _ => ?_)
        simp only [Function.comp_apply]
        refine congrArg (fun l => (p.1, l)) ?_
        rw [List.map_map]
        refine List.map_congr_left (fun x _ => ?_)
        simp only [Function.comp_apply]
        by_cases hx : x.id = c.id
        · simp [hx, List.append_assoc]
        · simp [hx]
      · simp [hrep]
    · rw [if_neg hm]
      rw [ih h t0]
      rw [Bool.not_eq_true] at hm
      have hrep : replayMsgs (n :: hist) c = replayMsgs hist c := by
        simp [replayMsgs, List.filter_cons, hm]
      rw [hrep]

theorem replayHistory_state (h : Hub) (hist : List Notification) (c : Client) :
    (replayHistory h hist c).1 =
      Hub.mk (h.rooms.map (fun p => (p.1, p.2.map (fun x =>
          if x.id = c.id then { x with mailbox := x.mailbox ++ replayMsgs hist c } else x))))
        h.history := by
  unfold replayHistory
  rw [replay_fold_general c hist h []]

theorem replayHistory_trace (h : Hub) (hist : List Notification) (c : Client) :
    (replayHistory h hist c).2 = (replayMsgs hist c).map (fun m => (c.id, m)) := by
  unfold replayHistory
  rw [replay_fold_general c hist h []]
  simp

/-! History growth algebra for the notification ring. -/

theorem addNotification_history_eq (h : Hub) (n : Notification) (f : String) :
    (addNotification h n f).history = lastN 50 (h.history ++ [assignId n f]) := by
  show (if (h.history ++ [assignId n f]).length > 50
      then (h.history ++ [assignId n f]).drop ((h.history ++ [assignId n f]).length - 50)
      else h.history ++ [assignId n f]) = lastN 50 (h.history ++ [assignId n f])
  by_cases hl : (h.history ++ [assignId n f]).length > 50
  · rw [if_pos hl]; rfl
  · rw [if_neg hl]
    unfold lastN
    have h0 : (h.history ++ [assignId n f]).length - 50 = 0 := by omega
    rw [h0, List.drop_zero]

theorem lastN_of_le {xs : List Notification} (h : xs.length ≤ 50) : lastN 50 xs = xs := by
  unfold lastN
  have h0 : xs.length - 50 = 0 := by omega
  rw [h0, List.drop_zero]

theorem lastN_length_le (xs : List Notification) : (lastN 50 xs).length ≤ 50 := by
  unfold lastN
  rw [List.length_drop]
  omega

theorem lastN_lastN_append (a b : List Notification) :
    lastN 50 (lastN 50 a ++ b) = lastN 50 (a ++ b) := by
  by_cases ha : a.length ≤ 50
  · rw [lastN_of_le ha]
  · have hd : a.length - 50 ≤ a.length := Nat.sub_le _ _
    have hlen : (a.drop (a.length - 50)).length = 50 := by
      rw [List.length_drop]; omega
    show (a.drop (a.length - 50) ++ b).drop ((a.drop (a.length - 50) ++ b).length - 50)
        = (a ++ b).drop ((a ++ b).length - 50)
    rw [List.length_append, List.length_append, hlen]
    have h1 : 50 + b.length - 50 = b.length := by omega
    have h2 : a.length + b.length - 50 = (a.length - 50) + b.length := by omega
    rw [h1, h2, ← List.drop_drop, List.drop_append_of_le_length hd]

theorem foldl_addNotification_history (subs : List (Notification × String)) :
    ∀ h : Hub, h.history.length ≤ 50 →
      (subs.foldl (fun a p => addNotification a p.1 p.2) h).history
        = lastN 50 (h.history ++ subs.map (fun p => assignId p.1 p.2)) := by
  induction subs with
  | nil =>
    intro h hl
    simp only [List.foldl_nil, List.map_nil, List.append_nil]
    rw [lastN_of_le hl]
  | cons p subs ih =>
    intro h hl
    simp only [List.foldl_cons, List.map_cons]
    have hlen : (addNotification h p.1 p.2).history.length ≤ 50 := by
      rw [addNotification_history_eq]
      exact lastN_length_le _
    rw [ih _ hlen, addNotification_history_eq, lastN_lastN_append, List.append_assoc,
      List.singleton_append]

/-! Claim theorems.  Each claim of the specification gets exactly one theorem
(with a witness when it carries hypotheses, and a counterexample when the
claim fails on the code). -/

/-- C10: broadcasting any message to a room name absent from the directory is
a silent no-op: the hub state is returned unchanged (no room is created, no
mailbox receives a delivery) and the trace is empty; consequently a
notification targeting a nonexistent room is recorded in history but
delivered to no session. -/
theorem broadcast_absent_room_is_noop (h : Hub) (r : String) (m : Message)
    (n : Notification) (fresh : String)
    (hr : lookupRoom h r = none)
    (hst : hasPrefixStr n.target "room:" = true)
    (hne : ¬ n.target = "all")
    (hdrop : dropStr n.target 5 = r) :
    broadcastToRoom h r m = (h, []) ∧
    routeNotification h n fresh = (addNotification h n fresh, []) := by
  refine ⟨broadcastToRoom_absent m hr, ?_⟩
  have h0 : lookupRoom (addNotification h n fresh) r = none := by
    rw [lookupRoom_addNotification]; exact hr
  show (if n.target = "all" then _ else _) = _
  rw [if_neg hne]
  rw [hst]
  show (if (true = true) then _ else _) = _
  rw [if_pos rfl, hdrop]
  exact broadcastToRoom_absent _ h0

/-- C10 witness: the concrete hub with only room lobby, broadcasting to the
absent room void and routing a notification targeted at it. -/
theorem broadcast_absent_room_is_noop_witness :
    broadcastToRoom exHub "void" exMsg1 = (exHub, []) ∧
    routeNotification exHub exNotifRoomGone "f"
      = (addNotification exHub exNotifRoomGone "f", []) :=
  broadcast_absent_room_is_noop exHub "void" exMsg1 exNotifRoomGone "f"
    (by decide) (by decide) (by decide) (by decide)

/-- C9: broadcasting a chat event to a room whose N members all have mailbox
space yields exactly N deliveries, one per member in membership order, each
carrying the original message (hence its room, username and text) unchanged. -/
theorem chat_broadcast_delivers_to_all_members (h : Hub) (r : String) (m : Message)
    (cs : List Client) (hr : lookupRoom h r = some cs)
    (hsp : ∀ x ∈ cs, x.mailbox.length < x.capacity) :
    (broadcastToRoom h r m).2 = cs.map (fun x => (x.id, m)) ∧
    (broadcastToRoom h r m).2.length = cs.length := by
  have ht := broadcast_trace_of_space m hr hsp
  exact ⟨ht, by rw [ht, List.length_map]⟩

/-- C9 witness: broadcasting one chat message to the two-member lobby. -/
theorem chat_broadcast_delivers_to_all_members_witness :
    (broadcastToRoom exHub "lobby" exMsg1).2 = [(1, exMsg1), (2, exMsg1)] := by
  have hm := chat_broadcast_delivers_to_all_members exHub "lobby" exMsg1 [exAlice, exBob]
    (by decide) (by decide)
  rw [hm.1]
  decide

/-- C6: over any sequence of submissions the notification history never
exceeds 50 entries; the resulting history is always the newest 50 of the
submitted sequence in submission order, and in particular after 51
submissions from an empty history the oldest submission is absent and exactly
the newest 50 remain. -/
theorem notification_history_bounded (h : Hub) (hl : h.history.length ≤ 50)
    (subs : List (Notification × String)) :
    (subs.foldl (fun a p => addNotification a p.1 p.2) h).history.length ≤ 50 ∧
    (subs.foldl (fun a p => addNotification a p.1 p.2) h).history
      = lastN 50 (h.history ++ subs.map (fun p => assignId p.1 p.2)) ∧
    (h.history = [] → subs.length = 51 →
      (subs.foldl (fun a p => addNotification a p.1 p.2) h).history
        = (subs.map (fun p => assignId p.1 p.2)).drop 1) := by
  have heq := foldl_addNotification_history subs h hl
  refine ⟨?_, heq, ?_⟩
  · rw [heq]
    exact lastN_length_le _
  · intro h0 h51
    rw [heq, h0, List.nil_append]
    unfold lastN
    rw [List.length_map, h51]

/-- C6 witness: a single submission to the fresh hub. -/
theorem notification_history_bounded_witness :
    ([(exNotifOther, "f")].foldl (fun a p => addNotification a p.1 p.2) NewHub).history.length
      ≤ 50 :=
  (notification_history_bounded NewHub (by decide) [(exNotifOther, "f")]).1

/-- C1 counterexample: a session with a capacity-1 mailbox receives two
broadcasts before being drained.  Contrary to the claim, the session is NOT
disconnected: it is still a member of its room afterwards, the second message
was silently dropped (the delivery trace of the second broadcast names only
the other member), and its mailbox still holds the first message. -/
theorem full_mailbox_counterexample :
    roomIds (broadcastToRoom (broadcastToRoom exHub "lobby" exMsg1).1 "lobby" exMsg2).1
      = [("lobby", [1, 2])] ∧
    (broadcastToRoom (broadcastToRoom exHub "lobby" exMsg1).1 "lobby" exMsg2).2.map Prod.fst
      = [2] ∧
    ((lookupRoom (broadcastToRoom (broadcastToRoom exHub "lobby" exMsg1).1 "lobby" exMsg2).1
        "lobby").getD []).map Client.mailbox = [[exMsg1], [exMsg1, exMsg2]] := by
  decide

/-- C1 amended: delivery to a member whose mailbox is full during a room
broadcast is a non-blocking drop, but the session is NOT unregistered and its
mailbox is NOT closed: the membership observable of the whole directory is
unchanged, and the deliveries are exactly the members whose mailboxes had
space, in membership order. -/
theorem full_mailbox_drop_without_unregister (h : Hub) (r : String) (m : Message) :
    roomIds (broadcastToRoom h r m).1 = roomIds h ∧
    (∀ cs, lookupRoom h r = some cs →
      (broadcastToRoom h r m).2
        = (cs.filter (fun x => x.mailbox.length < x.capacity)).map (fun x => (x.id, m))) := by
  refine ⟨roomIds_broadcast h r m, fun cs hr => ?_⟩
  rw [broadcastToRoom_found m hr]
  show cs.filterMap _ = _
  exact filterMap_ite (fun x : Client => x.mailbox.length < x.capacity) (fun x => (x.id, m)) cs

/-- C1 amended witness: the lobby where alice's capacity-1 mailbox is already
full; broadcasting delivers only to bob and unregisters nobody. -/
theorem full_mailbox_drop_without_unregister_witness :
    roomIds (broadcastToRoom exHubFull "lobby" exMsg2).1 = [("lobby", [1, 2])] ∧
    (broadcastToRoom exHubFull "lobby" exMsg2).2 = [(2, exMsg2)] := by
  have hm := full_mailbox_drop_without_unregister exHubFull "lobby" exMsg2
  have h2 := hm.2 [exAliceFull, exBob] (by decide)
  refine ⟨?_, ?_⟩
  · rw [hm.1]; decide
  · rw [h2]; decide

/-! Unfolding lemmas for the unregister path and the user list. -/

theorem removeClient_absent {h : Hub} {c : Client} (now : String)
    (hr : lookupRoom h c.room = none) :
    removeClientFromRoom h c now = (h, []) := by
  simp [removeClientFromRoom, hr]

theorem removeClient_found {h : Hub} {c : Client} {cs : List Client} (now : String)
    (hr : lookupRoom h c.room = some cs) :
    removeClientFromRoom h c now =
      (if (cs.filter (fun x => ¬ x.id = c.id)).length = 0
         then deleteRoom (sendUserListToRoom (broadcastToRoom
                (setRoomClients h c.room (cs.filter (fun x => ¬ x.id = c.id)))
                c.room (leaveMsg c now)).1 c.room now).1 c.room
         else (sendUserListToRoom (broadcastToRoom
                (setRoomClients h c.room (cs.filter (fun x => ¬ x.id = c.id)))
                c.room (leaveMsg c now)).1 c.room now).1,
       (broadcastToRoom (setRoomClients h c.room (cs.filter (fun x => ¬ x.id = c.id)))
          c.room (leaveMsg c now)).2
         ++ (sendUserListToRoom (broadcastToRoom
                (setRoomClients h c.room (cs.filter (fun x => ¬ x.id = c.id)))
                c.room (leaveMsg c now)).1 c.room now).2) := by
  simp [removeClientFromRoom, hr]

theorem removeClient_found_fst {h : Hub} {c : Client} {cs : List Client} (now : String)
    (hr : lookupRoom h c.room = some cs) :
    (removeClientFromRoom h c now).1 =
      (if (cs.filter (fun x => ¬ x.id = c.id)).length = 0
         then deleteRoom (sendUserListToRoom (broadcastToRoom
                (setRoomClients h c.room (cs.filter (fun x => ¬ x.id = c.id)))
                c.room (leaveMsg c now)).1 c.room now).1 c.room
         else (sendUserListToRoom (broadcastToRoom
                (setRoomClients h c.room (cs.filter (fun x => ¬ x.id = c.id)))
                c.room (leaveMsg c now)).1 c.room now).1) := by
  rw [removeClient_found now hr]

theorem sendUserList_found {h : Hub} {r : String} {cs : List Client} (now : String)
    (hr : lookupRoom h r = some cs) :
    sendUserListToRoom h r now
      = broadcastToRoom h r (userListMsg r (cs.map (fun x => x.username)) now) := by
  simp [sendUserListToRoom, hr]

theorem sendUserList_trace_mem {h : Hub} {r now : String} {d : Nat × Message}
    (hd : d ∈ (sendUserListToRoom h r now).2) :
    ∃ cs, lookupRoom h r = some cs ∧ d.1 ∈ cs.map Client.id ∧
      d.2 = userListMsg r (cs.map (fun x => x.username)) now := by
  cases hr : lookupRoom h r with
  | none =>
    rw [show sendUserListToRoom h r now = (h, []) by simp [sendUserListToRoom, hr]] at hd
    simp at hd
  | some cs =>
    rw [sendUserList_found now hr] at hd
    have hm := broadcast_trace_mem hr hd
    exact ⟨cs, rfl, hm.2, hm.1⟩

/-- C2 counterexample: the /users command issued by alice (id 1) in the
two-member lobby produces deliveries to BOTH members — the reply is broadcast
to the whole room, not addressed only to the issuing session. -/
theorem users_command_broadcast_counterexample :
    (handleCommand exHub exAlice "/users" "t").2.map Prod.fst = [1, 2] ∧ exAlice.id = 1 := by
  decide

/-- C2 amended: /stats, /rooms and an unrecognized command each produce
exactly one reply event delivered only to the issuing session (stats with the
total session count and per-room counts, rooms with the names of all rooms,
otherwise the fixed unknown-command reply); /users however broadcasts the
member list of the room of the caller to every member of that room, the
issuer included, rather than replying only to the issuer. -/
theorem command_single_reply (h : Hub) (c : Client) (now : String) :
    (∀ cmd, ¬ cmd = "/users" → ¬ cmd = "/stats" → ¬ cmd = "/rooms" →
      handleCommand h c cmd now
        = (sendTo h c.id (unknownReplyMsg c now), [(c.id, unknownReplyMsg c now)])) ∧
    handleCommand h c "/stats" now
      = (sendTo h c.id (statsReplyMsg h c now), [(c.id, statsReplyMsg h c now)]) ∧
    handleCommand h c "/rooms" now
      = (sendTo h c.id (roomsReplyMsg h c now), [(c.id, roomsReplyMsg h c now)]) ∧
    (∀ cs, lookupRoom h c.room = some cs → (∀ x ∈ cs, x.mailbox.length < x.capacity) →
      (handleCommand h c "/users" now).2
        = cs.map (fun x => (x.id, userListMsg c.room (cs.map (fun y => y.username)) now))) := by
  refine ⟨?_, ?_, ?_, ?_⟩
  · intro cmd h1 h2 h3
    unfold handleCommand
    rw [if_neg h1, if_neg h2, if_neg h3]
  · unfold handleCommand
    rw [if_neg (by decide : ¬ "/stats" = "/users"), if_pos rfl]
  · unfold handleCommand
    rw [if_neg (by decide : ¬ "/rooms" = "/users"),
      if_neg (by decide : ¬ "/rooms" = "/stats"), if_pos rfl]
  · intro cs hr hsp
    unfold handleCommand
    rw [if_pos rfl, sendUserList_found now hr]
    exact broadcast_trace_of_space _ hr hsp

/-- C2 amended witness: an unrecognized command from alice gets the single
unknown-command reply addressed to alice alone. -/
theorem command_single_reply_witness :
    handleCommand exHub exAlice "/bogus" "t"
      = (sendTo exHub exAlice.id (unknownReplyMsg exAlice "t"),
         [(exAlice.id, unknownReplyMsg exAlice "t")]) :=
  (command_single_reply exHub exAlice "t").1 "/bogus" (by decide) (by decide) (by decide)

/-- C3 counterexample: after alice has already been removed from the lobby,
a second unregister call for alice is NOT a no-op on events: it re-broadcasts
a leave and a user_list to the remaining member bob (trace recipients
[2, 2]), although the membership is unchanged. -/
theorem double_unregister_counterexample :
    ((removeClientFromRoom (removeClientFromRoom exHub exAlice "t").1 exAlice "u").2).map
        Prod.fst = [2, 2] ∧
    roomIds (removeClientFromRoom exHub exAlice "t").1 = [("lobby", [2])] := by
  decide

/-- C3 amended: a second unregister of an already-removed session leaves the
room directory and every membership unchanged; when the room of the session no
longer exists the call is a complete no-op, but when the room still exists
(because other members remain) it re-emits a duplicate leave event and a
user_list to the remaining members — those broadcasts are the only effect. -/
theorem double_unregister_state_noop (h : Hub) (c : Client) (now : String)
    (hinv : ∀ p ∈ h.rooms, ¬ p.2 = [])
    (habs : ∀ cs, lookupRoom h c.room = some cs → ¬ c.id ∈ cs.map Client.id) :
    roomIds (removeClientFromRoom h c now).1 = roomIds h ∧
    (lookupRoom h c.room = none → removeClientFromRoom h c now = (h, [])) ∧
    (∀ cs, lookupRoom h c.room = some cs →
      ∀ d ∈ (removeClientFromRoom h c now).2,
        d.1 ∈ cs.map Client.id ∧ (d.2.type = "leave" ∨ d.2.type = MsgUserList)) := by
  cases hr : lookupRoom h c.room with
  | none =>
    rw [removeClient_absent now hr]
    refine ⟨rfl, fun _ => rfl, fun cs hcs => ?_⟩
    simp at hcs
  | some cs =>
    have hfil : cs.filter (fun x => ¬ x.id = c.id) = cs := by
      refine filter_eq_self_of_all (fun x => ¬ x.id = c.id) cs (fun x hx hxe => ?_)
      exact habs cs hr (hxe ▸ List.mem_map_of_mem Client.id hx)
    have hne : ¬ cs = [] := hinv (c.room, cs) (findRoom_some_mem hr)
    have hlen : ¬ cs.length = 0 := fun h0 => hne (List.eq_nil_of_length_eq_zero h0)
    have hset : setRoomClients h c.room cs = h := by
      show Hub.mk (setRoom h.rooms c.room cs) h.history = h
      rw [setRoom_self hr]
    have heq := removeClient_found now hr
    rw [hfil, hset, if_neg hlen] at heq
    refine ⟨?_, ?_, ?_⟩
    · rw [heq]
      show roomIds (sendUserListToRoom (broadcastToRoom h c.room (leaveMsg c now)).1
          c.room now).1 = roomIds h
      rw [roomIds_sendUserList, roomIds_broadcast]
    · intro h0
      simp at h0
    · intro cs2 hcs2 d hd
      injection hcs2 with hcs2
      subst hcs2
      rw [heq] at hd
      show d.1 ∈ cs.map Client.id ∧ _
      rcases List.mem_append.mp hd with hd1 | hd2
      · have hm := broadcast_trace_mem hr hd1
        refine ⟨hm.2, Or.inl ?_⟩
        rw [hm.1]
        rfl
      · rcases sendUserList_trace_mem hd2 with ⟨cs3, hcs3, hid, hmsg⟩
        have hbc := broadcast_room_clients (leaveMsg c now) hr
        rw [hbc] at hcs3
        injection hcs3 with hcs3
        subst hcs3
        refine ⟨?_, Or.inr ?_⟩
        · rw [List.map_map] at hid
          rwa [show (Client.id ∘ deliverIfSpace (leaveMsg c now)) = Client.id by
            funext x; exact deliverIfSpace_id _ x] at hid
        · rw [hmsg]
          rfl

/-- C3 amended witness: removing bob from a hub where only alice remains in
the lobby (bob absent): the state is unchanged and bob's room broadcasts go
to alice only. -/
theorem double_unregister_state_noop_witness :
    roomIds (removeClientFromRoom { rooms := [("lobby", [exAlice])], history := [] }
      exBob "t").1 = roomIds ({ rooms := [("lobby", [exAlice])], history := [] } : Hub) :=
  (double_unregister_state_noop { rooms := [("lobby", [exAlice])], history := [] } exBob "t"
    (by decide) (by decide)).1

/-! Unfolding lemmas for the three arms of routeNotification. -/

theorem route_else {h : Hub} {n : Notification} {fresh : String}
    (hne : ¬ n.target = "all")
    (hr : hasPrefixStr n.target "room:" = false)
    (hu : hasPrefixStr n.target "user:" = false) :
    routeNotification h n fresh = (addNotification h n fresh, []) := by
  unfold routeNotification
  rw [if_neg hne, hr, hu]
  simp

theorem route_room_eq {h : Hub} {n : Notification} {fresh : String}
    (hne : ¬ n.target = "all")
    (hr : hasPrefixStr n.target "room:" = true) :
    routeNotification h n fresh
      = broadcastToRoom (addNotification h n fresh) (dropStr n.target 5)
          (adminMsg n (dropStr n.target 5)) := by
  unfold routeNotification
  rw [if_neg hne, hr]
  simp

theorem route_user_trace {h : Hub} {n : Notification} {fresh : String}
    (hne : ¬ n.target = "all")
    (hr : hasPrefixStr n.target "room:" = false)
    (hu : hasPrefixStr n.target "user:" = true) :
    (routeNotification h n fresh).2
      = h.rooms.flatMap (fun p =>
          (p.2.filter (fun x => x.username = dropStr n.target 5)).map
            (fun x => (x.id, adminMsg n p.1))) := by
  unfold routeNotification
  have hr2 : ¬ hasPrefixStr n.target "room:" = true := by simp [hr]
  rw [if_neg hne, if_neg hr2, if_pos hu]
  dsimp only
  rw [rooms_addNotification]
  rw [foldl_append_traces (fun p => (p.2.filter
    (fun x => x.username = dropStr n.target 5)).map (fun x => (x.id, adminMsg n p.1))) h.rooms []]
  rw [List.nil_append]

/-- C4 counterexample: the target expression everyone (which is neither the
literal all nor a room: or user: expression) is NOT classified as all: on a
hub with one room whose member has mailbox space, routing such a notification
delivers to nobody at all. -/
theorem unclassified_target_counterexample :
    (routeNotification exHub exNotifOther "f").2 = [] ∧
    roomIds exHub = [("lobby", [1, 2])] ∧
    exAlice.mailbox.length < exAlice.capacity := by
  decide

/-- C4 amended: target resolution classifies by prefix: room: selects the
single named room (every delivery goes to a member of that room), user:
selects exactly the sessions whose username equals the suffix (every delivery
goes to such a session), and every OTHER expression that is not the literal
all matches no case of the switch: the notification is recorded in history
and delivered to no session at all (not to every room). -/
theorem target_classification (h : Hub) (n : Notification) (fresh : String) :
    (¬ n.target = "all" → hasPrefixStr n.target "room:" = false →
     hasPrefixStr n.target "user:" = false →
      routeNotification h n fresh = (addNotification h n fresh, [])) ∧
    (¬ n.target = "all" → hasPrefixStr n.target "room:" = true →
      ∀ d ∈ (routeNotification h n fresh).2,
        ∃ cs, lookupRoom h (dropStr n.target 5) = some cs ∧ d.1 ∈ cs.map Client.id) ∧
    (¬ n.target = "all" → hasPrefixStr n.target "room:" = false →
     hasPrefixStr n.target "user:" = true →
      ∀ d ∈ (routeNotification h n fresh).2,
        ∃ p ∈ h.rooms, ∃ x ∈ p.2, x.username = dropStr n.target 5 ∧ d.1 = x.id) := by
  refine ⟨fun hne hr hu => route_else hne hr hu, ?_, ?_⟩
  · intro hne hr d hd
    rw [route_room_eq hne hr] at hd
    cases hcs : lookupRoom (addNotification h n fresh) (dropStr n.target 5) with
    | none =>
      rw [broadcastToRoom_absent _ hcs] at hd
      simp at hd
    | some cs =>
      have hmem := broadcast_trace_mem hcs hd
      rw [lookupRoom_addNotification] at hcs
      exact ⟨cs, hcs, hmem.2⟩
  · intro hne hr hu d hd
    rw [route_user_trace hne hr hu] at hd
    rcases List.mem_flatMap.mp hd with ⟨p, hp, hdp⟩
    rcases List.mem_map.mp hdp with ⟨x, hx, hxe⟩
    have hx2 := List.mem_filter.mp hx
    refine ⟨p, hp, x, hx2.1, ?_, ?_⟩
    · have := hx2.2
      simpa using this
    · rw [← hxe]

/-- C4 witness: routing the everyone-targeted notification reduces to the
history append alone. -/
theorem target_classification_witness :
    routeNotification exHub exNotifOther "f" = (addNotification exHub exNotifOther "f", []) :=
  (target_classification exHub exNotifOther "f").1 (by decide) (by decide) (by decide)

/-- C8: a notification with target room:X is delivered to exactly the members
of room X (one delivery per member when all have mailbox space) and to no
session in any other room; a notification with target user:U is delivered to
every session whose username equals U exactly, across all rooms — possibly
several sessions, possibly zero — and to no other session. -/
theorem notification_target_delivery (h : Hub) (n : Notification) (fresh : String) :
    (∀ cs, ¬ n.target = "all" → hasPrefixStr n.target "room:" = true →
      lookupRoom h (dropStr n.target 5) = some cs →
      (∀ x ∈ cs, x.mailbox.length < x.capacity) →
      (routeNotification h n fresh).2
        = cs.map (fun x => (x.id, adminMsg n (dropStr n.target 5)))) ∧
    (¬ n.target = "all" → hasPrefixStr n.target "room:" = false →
     hasPrefixStr n.target "user:" = true →
      (∀ p ∈ h.rooms, ∀ x ∈ p.2, x.username = dropStr n.target 5 →
        (x.id, adminMsg n p.1) ∈ (routeNotification h n fresh).2) ∧
      (∀ d ∈ (routeNotification h n fresh).2,
        ∃ p ∈ h.rooms, ∃ x ∈ p.2, x.username = dropStr n.target 5 ∧
          d = (x.id, adminMsg n p.1))) := by
  constructor
  · intro cs hne hr hcs hsp
    rw [route_room_eq hne hr]
    have hcs2 : lookupRoom (addNotification h n fresh) (dropStr n.target 5) = some cs := hcs
    exact broadcast_trace_of_space _ hcs2 hsp
  · intro hne hr hu
    constructor
    · intro p hp x hx hxu
      rw [route_user_trace hne hr hu]
      refine List.mem_flatMap.mpr ⟨p, hp, ?_⟩
      refine List.mem_map.mpr ⟨x, ?_, rfl⟩
      exact List.mem_filter.mpr ⟨hx, by simp [hxu]⟩
    · intro d hd
      rw [route_user_trace hne hr hu] at hd
      rcases List.mem_flatMap.mp hd with ⟨p, hp, hdp⟩
      rcases List.mem_map.mp hdp with ⟨x, hx, hxe⟩
      have hx2 := List.mem_filter.mp hx
      refine ⟨p, hp, x, hx2.1, by simpa using hx2.2, hxe.symm⟩

/-! Invariant machinery for the register and unregister state machine. -/

theorem entry_transfer {rs rs2 : Rooms} (he : idsOf rs2 = idsOf rs)
    {p : String × List Client} (hp : p ∈ rs2) :
    ∃ q ∈ rs, q.1 = p.1 ∧ q.2.map Client.id = p.2.map Client.id := by
  have h1 : (p.1, p.2.map Client.id) ∈ idsOf rs2 := by
    unfold idsOf
    exact List.mem_map.mpr ⟨p, hp, rfl⟩
  rw [he] at h1
  unfold idsOf at h1
  rcases List.mem_map.mp h1 with ⟨q, hq, hqe⟩
  obtain ⟨he1, he2⟩ := Prod.ext_iff.mp hqe
  exact ⟨q, hq, he1, he2⟩

theorem pos_transfer {g1 g2 : Hub} (he : roomIds g2 = roomIds g1)
    (hinv : ∀ p ∈ g1.rooms, 0 < p.2.length) : ∀ p ∈ g2.rooms, 0 < p.2.length := by
  intro p hp
  rcases entry_transfer he hp with ⟨q, hq, _, hqe⟩
  have h1 := hinv q hq
  have hl := congrArg List.length hqe
  simp only [List.length_map] at hl
  omega

theorem insertClient_pos (cs : List Client) (c : Client) :
    0 < (insertClient cs c).length := by
  unfold insertClient
  by_cases hany : cs.any (fun x => x.id = c.id) = true
  · rw [if_pos hany]
    rcases List.any_eq_true.mp hany with ⟨x, hx, _⟩
    exact List.length_pos.mpr (List.ne_nil_of_mem hx)
  · rw [if_neg hany]
    simp

theorem mem_insertClient {cs : List Client} {c x : Client}
    (hx : x ∈ insertClient cs c) : x ∈ cs ∨ x = c := by
  unfold insertClient at hx
  by_cases hany : cs.any (fun y => y.id = c.id) = true
  · rw [if_pos hany] at hx
    exact Or.inl hx
  · rw [if_neg hany] at hx
    rcases List.mem_append.mp hx with h1 | h1
    · exact Or.inl h1
    · exact Or.inr (List.mem_singleton.mp h1)

theorem setRoom_append_of_none {rs : Rooms} {n : String} (b cs : List Client)
    (h : findRoom rs n = none) :
    setRoom (rs ++ [(n, b)]) n cs = rs ++ [(n, cs)] := by
  induction rs with
  | nil => simp [setRoom]
  | cons p ps ih =>
    simp only [findRoom] at h
    by_cases hp : p.1 = n
    · simp [hp] at h
    · simp only [if_neg hp] at h
      simp only [List.cons_append, setRoom, if_neg hp]
      exact congrArg (List.cons p) (ih h)

theorem getOrCreate_history (h : Hub) (r : String) :
    (getOrCreateRoom h r).history = h.history := by
  unfold getOrCreateRoom
  split <;> rfl

theorem lookupRoom_getOrCreate (h : Hub) (r : String) :
    lookupRoom (getOrCreateRoom h r) r = some ((lookupRoom h r).getD []) := by
  unfold getOrCreateRoom lookupRoom
  by_cases hs : (findRoom h.rooms r).isSome = true
  · rw [if_pos hs]
    rcases Option.isSome_iff_exists.mp hs with ⟨cs, hf⟩
    rw [hf]
    rfl
  · rw [if_neg hs]
    have hf : findRoom h.rooms r = none := by
      cases hfe : findRoom h.rooms r with
      | none => rfl
      | some cs => rw [hfe] at hs; simp at hs
    show findRoom (h.rooms ++ [(r, [])]) r = some ((findRoom h.rooms r).getD [])
    rw [findRoom_append_of_none hf, hf]
    simp [findRoom]

theorem roomIds_replayHistory (h : Hub) (hist : List Notification) (c : Client) :
    roomIds (replayHistory h hist c).1 = roomIds h := by
  rw [replayHistory_state]
  show idsOf (h.rooms.map _) = idsOf h.rooms
  refine idsOf_map_clients
    (fun _ x => if x.id = c.id then { x with mailbox := x.mailbox ++ replayMsgs hist c } else x)
    (fun s x => ?_) h.rooms
  show (if x.id = c.id
    then { x with mailbox := x.mailbox ++ replayMsgs hist c } else x).id = x.id
  split <;> rfl

theorem addClient_roomIds (h : Hub) (c : Client) (now : String) :
    roomIds (addClientToRoom h c now).1 = roomIds (joinStep h c) := by
  unfold addClientToRoom
  dsimp only
  rw [roomIds_sendUserList, roomIds_replayHistory, roomIds_broadcast]

theorem joinStep_pos (h : Hub) (c : Client)
    (hinv : ∀ p ∈ h.rooms, 0 < p.2.length) :
    ∀ p ∈ (joinStep h c).rooms, 0 < p.2.length := by
  intro p hp
  unfold joinStep setRoomClients at hp
  dsimp only at hp
  cases hf : findRoom h.rooms c.room with
  | some cs =>
    have hs : (findRoom h.rooms c.room).isSome = true := by rw [hf]; rfl
    rw [show getOrCreateRoom h c.room = h by unfold getOrCreateRoom; rw [if_pos hs]] at hp
    rcases mem_setRoom hp with h1 | h1
    · exact hinv p h1
    · rw [h1]
      exact insertClient_pos _ _
  | none =>
    have hs : ¬ (findRoom h.rooms c.room).isSome = true := by rw [hf]; simp
    rw [show getOrCreateRoom h c.room = { h with rooms := h.rooms ++ [(c.room, [])] } by
        unfold getOrCreateRoom; rw [if_neg hs]] at hp
    rw [show ({ h with rooms := h.rooms ++ [(c.room, [])] } : Hub).rooms
        = h.rooms ++ [(c.room, [])] from rfl] at hp
    rw [setRoom_append_of_none _ _ hf] at hp
    rcases List.mem_append.mp hp with h1 | h1
    · exact hinv p h1
    · rw [List.mem_singleton.mp h1]
      exact insertClient_pos _ _

theorem register_preserves_pos (g : Hub) (c : Client) (now : String)
    (hinv : ∀ p ∈ g.rooms, 0 < p.2.length) :
    ∀ p ∈ (addClientToRoom g c now).1.rooms, 0 < p.2.length :=
  pos_transfer (addClient_roomIds g c now) (joinStep_pos g c hinv)

theorem unregister_preserves_pos (g : Hub) (c : Client) (now : String)
    (hinv : ∀ p ∈ g.rooms, 0 < p.2.length) :
    ∀ p ∈ (removeClientFromRoom g c now).1.rooms, 0 < p.2.length := by
  cases hr : lookupRoom g c.room with
  | none =>
    rw [removeClient_absent now hr]
    exact hinv
  | some cs =>
    rw [removeClient_found_fst now hr]
    have hR : roomIds (sendUserListToRoom (broadcastToRoom
        (setRoomClients g c.room (cs.filter (fun x => ¬ x.id = c.id)))
        c.room (leaveMsg c now)).1 c.room now).1
        = roomIds (setRoomClients g c.room (cs.filter (fun x => ¬ x.id = c.id))) := by
      rw [roomIds_sendUserList, roomIds_broadcast]
    by_cases h0 : (cs.filter (fun x => ¬ x.id = c.id)).length = 0
    · rw [if_pos h0]
      intro p hp
      have hmem := List.mem_of_mem_filter hp
      have hpred := List.of_mem_filter hp
      have hpne : ¬ p.1 = c.room := of_decide_eq_true hpred
      rcases entry_transfer hR hmem with ⟨q, hq, hq1, hqe⟩
      rcases mem_setRoom hq with h1 | h1
      · have h2 := hinv q h1
        have hl := congrArg List.length hqe
        simp only [List.length_map] at hl
        omega
      · exfalso
        rw [h1] at hq1
        exact hpne hq1.symm
    · rw [if_neg h0]
      intro p hp
      rcases entry_transfer hR hp with ⟨q, hq, hq1, hqe⟩
      have hl := congrArg List.length hqe
      simp only [List.length_map] at hl
      rcases mem_setRoom hq with h1 | h1
      · have h2 := hinv q h1
        omega
      · have h2 : q.2.length = (cs.filter (fun x => ¬ x.id = c.id)).length := by rw [h1]
        omega

/-- C5: over every finite sequence of register and unregister operations,
at every point between operations every room present in the directory has a
member count greater than zero (a room absent from the directory trivially
has no members): rooms are created on first join and deleted in the same step
in which their membership reaches zero. -/
theorem room_exists_iff_nonempty (h : Hub)
    (hinv : ∀ p ∈ h.rooms, 0 < p.2.length) (ops : List HubOp) (k : Nat) :
    ∀ p ∈ (applyOps h (ops.take k)).rooms, 0 < p.2.length := by
  have main : ∀ (l : List HubOp) (g : Hub), (∀ p ∈ g.rooms, 0 < p.2.length) →
      ∀ p ∈ (applyOps g l).rooms, 0 < p.2.length := by
    intro l
    induction l with
    | nil => intro g hg; exact hg
    | cons op l ih =>
      intro g hg
      show ∀ p ∈ (applyOps (applyOp g op) l).rooms, 0 < p.2.length
      refine ih (applyOp g op) ?_
      cases op with
      | register c now => exact register_preserves_pos g c now hg
      | unregister c now => exact unregister_preserves_pos g c now hg
  exact main (ops.take k) h hinv

/-- C5 witness: after registering alice into the fresh hub, the single lobby
entry (alice with the join message in her mailbox) has positive member count. -/
theorem room_exists_iff_nonempty_witness :
    0 < (("lobby", [{ exAlice with mailbox := [joinMsg exAlice "t"] }]) :
        String × List Client).2.length :=
  room_exists_iff_nonempty NewHub (by decide) [HubOp.register exAlice "t"] 1
    ("lobby", [{ exAlice with mailbox := [joinMsg exAlice "t"] }]) (by decide)

/-! Supporting lemmas for the register path. -/

theorem findRoom_map_clients (g : Client → Client) (rs : Rooms) (r : String) :
    findRoom (rs.map (fun p => (p.1, p.2.map g))) r
      = (findRoom rs r).map (fun cs => cs.map g) := by
  induction rs with
  | nil => rfl
  | cons p ps ih =>
    by_cases hp : p.1 = r
    · simp [findRoom, hp]
    · simp [findRoom, hp, ih]

theorem joinStep_lookup (h : Hub) (c : Client) :
    lookupRoom (joinStep h c) c.room = some (joinedMembers h c) := by
  unfold joinStep joinedMembers
  dsimp only
  have hg := lookupRoom_getOrCreate h c.room
  rw [hg]
  simp only [Option.getD_some]
  exact findRoom_setRoom_self hg

theorem joinStep_history (h : Hub) (c : Client) :
    (joinStep h c).history = h.history := by
  unfold joinStep
  dsimp only
  rw [show (setRoomClients (getOrCreateRoom h c.room) c.room
      (insertClient ((lookupRoom (getOrCreateRoom h c.room) c.room).getD []) c)).history
      = (getOrCreateRoom h c.room).history from rfl]
  exact getOrCreate_history h c.room

/-- C7: under mailbox slack (every session can still accept the join, the
full history replay and the user list), register never fails and performs, in
order: add the session to its assigned room, creating it if absent (the
membership observable afterwards is exactly the previous membership plus the
new session); emit a join event to every current member including the new
one; replay exactly the matching history notifications, in history order, to
the new session only; then broadcast the refreshed user_list to the whole
room. -/
theorem register_behavior (h : Hub) (c : Client) (now : String)
    (hw : ∀ p ∈ h.rooms, ∀ x ∈ p.2, x.mailbox.length + 2 + h.history.length ≤ x.capacity)
    (hc : c.mailbox.length + 2 + h.history.length ≤ c.capacity) :
    (lookupRoom (addClientToRoom h c now).1 c.room).map (fun cs => cs.map Client.id)
      = some ((joinedMembers h c).map Client.id) ∧
    (addClientToRoom h c now).2
      = (joinedMembers h c).map (fun x => (x.id, joinMsg c now))
        ++ (h.history.filter (fun n => notifMatches n c.room c.username)).map
             (fun n => (c.id, notifReplayMsg n c.room))
        ++ (joinedMembers h c).map (fun x =>
             (x.id, userListMsg c.room ((joinedMembers h c).map (fun y => y.username)) now)) := by
  have hslack : ∀ x ∈ joinedMembers h c,
      x.mailbox.length + 2 + h.history.length ≤ x.capacity := by
    intro x hx
    unfold joinedMembers at hx
    rcases mem_insertClient hx with h1 | h1
    · cases hlr : lookupRoom h c.room with
      | none => rw [hlr] at h1; simp at h1
      | some cs =>
        rw [hlr] at h1
        simp only [Option.getD_some] at h1
        exact hw (c.room, cs) (findRoom_some_mem hlr) x h1
    · rw [h1]
      exact hc
  have hjm : lookupRoom (joinStep h c) c.room = some (joinedMembers h c) :=
    joinStep_lookup h c
  have hh2 : (joinStep h c).history = h.history := joinStep_history h c
  have hsp1 : ∀ x ∈ joinedMembers h c, x.mailbox.length < x.capacity := by
    intro x hx
    have := hslack x hx
    omega
  have ht1 := broadcast_trace_of_space (joinMsg c now) hjm hsp1
  have hr1 := broadcast_room_clients (joinMsg c now) hjm
  have hh1 : (broadcastToRoom (joinStep h c) c.room (joinMsg c now)).1.history
      = h.history := by
    rw [broadcast_history]
    exact hh2
  have hst2 := replayHistory_state
    (broadcastToRoom (joinStep h c) c.room (joinMsg c now)).1 h.history c
  have ht2 := replayHistory_trace
    (broadcastToRoom (joinStep h c) c.room (joinMsg c now)).1 h.history c
  have ht2b : (replayHistory (broadcastToRoom (joinStep h c) c.room (joinMsg c now)).1
      h.history c).2
      = (h.history.filter (fun n => notifMatches n c.room c.username)).map
          (fun n => (c.id, notifReplayMsg n c.room)) := by
    rw [ht2]
    unfold replayMsgs
    rw [List.map_map]
    rfl
  have hr2 : lookupRoom (replayHistory (broadcastToRoom (joinStep h c) c.room
      (joinMsg c now)).1 h.history c).1 c.room
      = some (((joinedMembers h c).map (deliverIfSpace (joinMsg c now))).map
          (fun x => if x.id = c.id
            then { x with mailbox := x.mailbox ++ replayMsgs h.history c } else x)) := by
    rw [hst2]
    show findRoom ((broadcastToRoom (joinStep h c) c.room (joinMsg c now)).1.rooms.map _)
      c.room = _
    rw [findRoom_map_clients (fun x => if x.id = c.id
      then { x with mailbox := x.mailbox ++ replayMsgs h.history c } else x) _ c.room]
    rw [show findRoom (broadcastToRoom (joinStep h c) c.room (joinMsg c now)).1.rooms c.room
      = some ((joinedMembers h c).map (deliverIfSpace (joinMsg c now))) from hr1]
    rfl
  have hmem3 : ∀ y ∈ ((joinedMembers h c).map (deliverIfSpace (joinMsg c now))).map
      (fun x => if x.id = c.id
        then { x with mailbox := x.mailbox ++ replayMsgs h.history c } else x),
      y.mailbox.length < y.capacity := by
    intro y hy
    rcases List.mem_map.mp hy with ⟨z, hz, hze⟩
    rcases List.mem_map.mp hz with ⟨x, hx, hxe⟩
    have hs := hslack x hx
    have hlen1 : z.mailbox.length ≤ x.mailbox.length + 1 := by
      rw [← hxe]
      exact deliverIfSpace_mailbox_le _ x
    have hcap1 : z.capacity = x.capacity := by
      rw [← hxe]
      exact deliverIfSpace_capacity _ x
    have hrepl : (replayMsgs h.history c).length ≤ h.history.length := by
      unfold replayMsgs
      rw [List.length_map]
      exact List.length_filter_le _ _
    have hlen2 : y.mailbox.length ≤ z.mailbox.length + (replayMsgs h.history c).length := by
      rw [← hze]
      by_cases hid : z.id = c.id
      · rw [if_pos hid]
        simp
      · rw [if_neg hid]
        omega
    have hcap2 : y.capacity = z.capacity := by
      rw [← hze]
      by_cases hid : z.id = c.id
      · rw [if_pos hid]
      · rw [if_neg hid]
    omega
  have husers : (((joinedMembers h c).map (deliverIfSpace (joinMsg c now))).map
      (fun x => if x.id = c.id
        then { x with mailbox := x.mailbox ++ replayMsgs h.history c } else x)).map
        (fun y => y.username)
      = (joinedMembers h c).map (fun y => y.username) := by
    rw [List.map_map, List.map_map]
    refine List.map_congr_left (fun x _ => ?_)
    simp only [Function.comp_apply]
    by_cases hid : (deliverIfSpace (joinMsg c now) x).id = c.id
    · rw [if_pos hid]
      exact deliverIfSpace_username _ x
    · rw [if_neg hid]
      exact deliverIfSpace_username _ x
  have ht3 : (sendUserListToRoom (replayHistory (broadcastToRoom (joinStep h c) c.room
      (joinMsg c now)).1 h.history c).1 c.room now).2
      = (joinedMembers h c).map (fun x =>
          (x.id, userListMsg c.room ((joinedMembers h c).map (fun y => y.username)) now)) := by
    rw [sendUserList_found now hr2]
    rw [broadcast_trace_of_space _ hr2 hmem3]
    rw [husers]
    rw [List.map_map, List.map_map]
    refine List.map_congr_left (fun x _ => ?_)
    simp only [Function.comp_apply]
    congr 1
    by_cases hid : (deliverIfSpace (joinMsg c now) x).id = c.id
    · rw [if_pos hid]
      exact deliverIfSpace_id _ x
    · rw [if_neg hid]
      exact deliverIfSpace_id _ x
  have hfinal : lookupRoom (sendUserListToRoom (replayHistory (broadcastToRoom
      (joinStep h c) c.room (joinMsg c now)).1 h.history c).1 c.room now).1 c.room
      = some ((((joinedMembers h c).map (deliverIfSpace (joinMsg c now))).map
          (fun x => if x.id = c.id
            then { x with mailbox := x.mailbox ++ replayMsgs h.history c } else x)).map
          (deliverIfSpace (userListMsg c.room ((((joinedMembers h c).map
            (deliverIfSpace (joinMsg c now))).map
            (fun x => if x.id = c.id
              then { x with mailbox := x.mailbox ++ replayMsgs h.history c } else x)).map
            (fun x => x.username)) now))) := by
    rw [sendUserList_found now hr2]
    exact broadcast_room_clients _ hr2
  constructor
  · unfold addClientToRoom
    dsimp only
    rw [hh1, hfinal]
    rw [Option.map_some']
    refine congrArg some ?_
    rw [List.map_map, List.map_map, List.map_map]
    refine List.map_congr_left (fun x _ => ?_)
    simp only [Function.comp_apply]
    rw [deliverIfSpace_id]
    by_cases hid : (deliverIfSpace (joinMsg c now) x).id = c.id
    · rw [if_pos hid]
      exact deliverIfSpace_id _ x
    · rw [if_neg hid]
      exact deliverIfSpace_id _ x
  · unfold addClientToRoom
    dsimp only
    rw [hh1, ht1, ht2b, ht3]

/-- C7 witness: carol joining the lobby of the two-member hub with ample
mailbox capacities and empty history. -/
theorem register_behavior_witness :
    (addClientToRoom { rooms := [("lobby", [exBob])], history := [] } exCarol "t").2
      = (joinedMembers { rooms := [("lobby", [exBob])], history := [] } exCarol).map
          (fun x => (x.id, joinMsg exCarol "t"))
        ++ []
        ++ (joinedMembers { rooms := [("lobby", [exBob])], history := [] } exCarol).map
            (fun x => (x.id, userListMsg exCarol.room
              ((joinedMembers { rooms := [("lobby", [exBob])], history := [] } exCarol).map
                (fun y => y.username)) "t")) := by
  have hm := (register_behavior { rooms := [("lobby", [exBob])], history := [] } exCarol "t"
    (by decide) (by decide)).2
  rw [hm]
  rfl

/-- C8 witness: the room:den notification reaches exactly the single member
of den, and the user:bob notification reaches both sessions named bob (one in
each room) and nobody else. -/
theorem notification_target_delivery_witness :
    (routeNotification exHub2 exNotifRoomDen "f").2
      = [(4, adminMsg exNotifRoomDen (dropStr exNotifRoomDen.target 5))] ∧
    (2, adminMsg exNotifUserBob "lobby") ∈ (routeNotification exHub2 exNotifUserBob "f").2 := by
  constructor
  · have hm := (notification_target_delivery exHub2 exNotifRoomDen "f").1 [exBobDen]
      (by decide) (by decide) (by decide) (by decide)
    rw [hm]
    decide
  · have hm := (notification_target_delivery exHub2 exNotifUserBob "f").2
      (by decide) (by decide) (by decide)
    exact hm.1 ("lobby", [exAlice, exBob]) (by decide) exBob (by decide) (by decide)

end WsChat
